import Mathlib

/-! # Chain extension validation

A shallow embedding of `crates/lang/ir/src/ir/chain_extension.rs`: the validator
that turns a parsed trait declaration (`syn::ItemTrait`) into the ink! chain
extension IR (`ChainExtension`).  Helpers of the repository that are not part of
the provided source file (`idents_lint::ensure_no_ink_identifiers`,
`ir::partition_attributes`, `ir::first_ink_attribute`, `ir::sanitize_attributes`)
are modelled from the specification and marked as such. -/

/-- A source location (`proc_macro2::Span`), abstracted to a tag. -/
structure Span where
  tag : Nat
  deriving DecidableEq, Repr

/-- The ink! attribute `#[ink(function = N: usize)]` payload (`struct Extension`),
carrying the extension id `N` (a `u32`; only compared for equality here). -/
structure Extension where
  id : Nat
  deriving DecidableEq, Repr

/-- `Extension::new`. -/
def Extension.new (id : Nat) : Extension :=
  ⟨id⟩

/-- The recognized ink! attribute argument kinds (`ir::AttributeArg`) as far as this
file distinguishes them: the `function = N` directive, or any other recognized
ink! kind (abstracted to a tag). -/
inductive AttributeArg where
  | extensionArg (ext : Extension)
  | otherArg (tag : Nat)
  deriving DecidableEq, Repr

/-- Whether an ink! attribute argument is the `function = N` directive. -/
def AttributeArg.isExtension : AttributeArg → Bool
  | .extensionArg _ => true
  | .otherArg _ => false

/-- A Rust attribute (`syn::Attribute`): either a recognized ink! attribute with its
(first) argument, or an ordinary non-ink attribute abstracted to a tag. -/
inductive Attribute where
  | ink (arg : AttributeArg)
  | rust (tag : Nat)
  deriving DecidableEq, Repr

/-- Whether an attribute is an ink! attribute. -/
def Attribute.isInk : Attribute → Bool
  | .ink _ => true
  | .rust _ => false

/-- The ink! argument of an attribute, if it is an ink! attribute. -/
def Attribute.inkArg? : Attribute → Option AttributeArg
  | .ink arg => some arg
  | .rust _ => none

/-- One diagnostic of a `syn::Error`: a message at a source span. -/
structure Diagnostic where
  span : Span
  msg : String
  deriving DecidableEq, Repr

/-- A structured error (`syn::Error`): an ordered list of diagnostics.  The
`format_err!`/`format_err_spanned!` macros build a one-element error and
`Error::into_combine` appends the second error after the first. -/
abbrev InkError := List Diagnostic

/-- The visibility of a trait (`syn::Visibility`), with its span. -/
inductive Visibility where
  | publicVis (span : Span)
  | crateVis (span : Span)
  | restrictedVis (span : Span)
  | inheritedVis (span : Span)
  deriving DecidableEq, Repr

/-- Whether a visibility is `pub` (`matches!(vis, syn::Visibility::Public(_))`). -/
def Visibility.isPublic : Visibility → Bool
  | .publicVis _ => true
  | _ => false

/-- The span of a visibility. -/
def Visibility.span : Visibility → Span
  | .publicVis sp => sp
  | .crateVis sp => sp
  | .restrictedVis sp => sp
  | .inheritedVis sp => sp

/-- A method signature (`syn::Signature`): name, modifier tokens (each present
with its span or absent), generic parameters, and optional `self` receiver. -/
structure Signature where
  ident : String
  constness : Option Span
  asyncness : Option Span
  unsafety : Option Span
  abi : Option Span
  variadic : Option Span
  genericsParams : List Span
  receiver : Option Span
  deriving DecidableEq, Repr

/-- A trait method (`syn::TraitItemMethod`): attributes, signature, optional
default body (its span), and the span of the whole item. -/
structure TraitItemMethod where
  attrs : List Attribute
  sig : Signature
  default : Option Span
  span : Span
  deriving DecidableEq, Repr

/-- A trait member (`syn::TraitItem`): a method, or one of the unsupported member
kinds (associated constant, macro invocation, associated type, verbatim tokens),
or any other/future member kind (`unknown`). -/
inductive TraitItem where
  | constItem (span : Span)
  | macroItem (span : Span)
  | typeItem (span : Span)
  | verbatimItem (span : Span)
  | methodItem (m : TraitItemMethod)
  | unknownItem (span : Span)
  deriving DecidableEq, Repr

/-- A trait declaration (`syn::ItemTrait`): name, span, `unsafe` and `auto`
tokens, generic parameters, visibility, supertraits, and ordered members. -/
structure ItemTrait where
  ident : String
  span : Span
  unsafety : Option Span
  auto_token : Option Span
  genericsParams : List Span
  vis : Visibility
  supertraits : List Span
  items : List TraitItem
  deriving DecidableEq, Repr

/-- The unique ID of an ink! chain extension method (`struct ExtensionId`). -/
structure ExtensionId where
  index : Nat
  deriving DecidableEq, Repr

/-- `ExtensionId::from_u32`. -/
def ExtensionId.from_u32 (index : Nat) : ExtensionId :=
  ⟨index⟩

/-- `ExtensionId::into_u32`. -/
def ExtensionId.into_u32 (i : ExtensionId) : Nat :=
  i.index

/-- An ink! chain extension method (`struct ChainExtensionMethod`). -/
structure ChainExtensionMethod where
  item : TraitItemMethod
  id : ExtensionId
  deriving DecidableEq, Repr

/-- `ChainExtensionMethod::span`. -/
def ChainExtensionMethod.span (m : ChainExtensionMethod) : Span :=
  m.item.span

/-- `ChainExtensionMethod::ident`. -/
def ChainExtensionMethod.ident (m : ChainExtensionMethod) : String :=
  m.item.sig.ident

/-- `ChainExtensionMethod::sig`. -/
def ChainExtensionMethod.sig (m : ChainExtensionMethod) : Signature :=
  m.item.sig

/-- An ink! chain extension (`struct ChainExtension`). -/
structure ChainExtension where
  item : ItemTrait
  methods : List ChainExtensionMethod
  deriving DecidableEq, Repr

/-- Modelled from the spec: `ir::partition_attributes` is not under src/.  It
splits an attribute list into the ink! attributes and the remaining non-ink
attributes, failing on duplicate ink! attributes; `ChainExtensionMethod::attrs`
relies on it to return "the attribute list (with extension directive stripped)". -/
def partition_attributes (attrs : List Attribute) :
    Except InkError (List Attribute × List Attribute) :=
  let inks := attrs.filter Attribute.isInk
  let rest := attrs.filter fun a => !a.isInk
  if inks.Nodup then
    .ok (inks, rest)
  else
    .error [⟨⟨0⟩, "encountered duplicate ink! attribute"⟩]

/-- `ChainExtensionMethod::attrs`: the Rust attributes of the method with all
ink! attributes stripped.  The source unwraps the partition result with
`.expect(..)`; the panic case is modelled by propagating the error. -/
def ChainExtensionMethod.attrs (m : ChainExtensionMethod) :
    Except InkError (List Attribute) :=
  (partition_attributes m.item.attrs).map fun p => p.2

/-- Modelled from the spec: `ir::first_ink_attribute` is not under src/.  It
returns the first ink! attribute of the list, if any; the source then inspects
the kind of its first argument. -/
def first_ink_attribute (attrs : List Attribute) : Option AttributeArg :=
  attrs.findSome? Attribute.inkArg?

/-- Modelled from the spec: `ir::sanitize_attributes` is not under src/.  Per the
spec (§4.3), among the ink! attribute arguments of the method there must be
exactly one instance of the expected directive kind (here `function = N`) and no
other recognized directive kind; otherwise a descriptive error at the given span. -/
def sanitize_attributes (span : Span) (attrs : List Attribute) :
    Except InkError Unit :=
  let inkArgs := attrs.filterMap Attribute.inkArg?
  if inkArgs.any fun arg => !arg.isExtension then
    .error [⟨span, "encountered forbidden ink! attribute kind for ink! chain extension method"⟩]
  else
    match inkArgs with
    | [_] => .ok ()
    | [] => .error [⟨span, "missing expected ink! attribute for ink! chain extension method"⟩]
    | _ => .error [⟨span, "encountered duplicate ink! attribute for ink! chain extension method"⟩]

/-- Modelled from the spec: `idents_lint::ensure_no_ink_identifiers` is not under
src/.  Validation rejects a declaration that uses reserved ink! identifiers
anywhere; identifiers starting with `__ink` are the reserved ones. -/
def usesReservedInkIdentifier (item_trait : ItemTrait) : Bool :=
  "__ink".toList.isPrefixOf item_trait.ident.toList ||
    item_trait.items.any fun ti =>
      match ti with
      | .methodItem m => "__ink".toList.isPrefixOf m.sig.ident.toList
      | _ => false

/-- Modelled from the spec: `idents_lint::ensure_no_ink_identifiers` is not under
src/.  It fails iff the declaration uses a reserved ink! identifier. -/
def ensure_no_ink_identifiers (item_trait : ItemTrait) : Except InkError Unit :=
  if usesReservedInkIdentifier item_trait then
    .error [⟨item_trait.span, "encountered invalid identifier starting with __ink"⟩]
  else
    .ok ()

/-- `ChainExtension::analyse_properties`: interface-level checks, in source
order (unsafety, auto trait, generics, visibility, supertraits). -/
def ChainExtension.analyse_properties (item_trait : ItemTrait) :
    Except InkError Unit :=
  match item_trait.unsafety, item_trait.auto_token with
  | some sp, _ =>
    .error [⟨sp, "ink! chain extensions cannot be unsafe"⟩]
  | none, some sp =>
    .error [⟨sp, "ink! chain extensions cannot be automatically implemented traits"⟩]
  | none, none =>
    if item_trait.genericsParams ≠ [] then
      .error [⟨item_trait.genericsParams.headD ⟨0⟩, "ink! chain extensions must not be generic"⟩]
    else if !item_trait.vis.isPublic then
      .error [⟨item_trait.vis.span, "ink! chain extensions must have public visibility"⟩]
    else if item_trait.supertraits ≠ [] then
      .error [⟨item_trait.supertraits.headD ⟨0⟩, "ink! chain extensions with supertraits are not supported, yet"⟩]
    else
      .ok ()

/-- `ChainExtension::analyse_chain_extension_method`: attribute sanitation and
`self`-receiver rejection; on success builds the `ChainExtensionMethod`. -/
def ChainExtension.analyse_chain_extension_method (item_method : TraitItemMethod)
    (extension : Extension) : Except InkError ChainExtensionMethod :=
  match sanitize_attributes item_method.span item_method.attrs with
  | .error e => .error e
  | .ok _ =>
    match item_method.sig.receiver with
    | some receiver =>
      .error [⟨receiver, "ink! chain extension method must not have a `self` receiver"⟩]
    | none => .ok ⟨item_method, ExtensionId.from_u32 extension.id⟩

/-- `ChainExtension::analyse_methods`: method-level checks in source order
(default body, constness, asyncness, unsafety, ABI, variadic, generics), then
extraction of the `function = N` directive from the attribute list. -/
def ChainExtension.analyse_methods (method : TraitItemMethod) :
    Except InkError ChainExtensionMethod :=
  match method.default, method.sig.constness, method.sig.asyncness,
      method.sig.unsafety, method.sig.abi, method.sig.variadic with
  | some sp, _, _, _, _, _ =>
    .error [⟨sp, "ink! chain extension methods with default implementations are not supported"⟩]
  | none, some sp, _, _, _, _ =>
    .error [⟨sp, "const ink! chain extension methods are not supported"⟩]
  | none, none, some sp, _, _, _ =>
    .error [⟨sp, "async ink! chain extension methods are not supported"⟩]
  | none, none, none, some sp, _, _ =>
    .error [⟨sp, "unsafe ink! chain extension methods are not supported"⟩]
  | none, none, none, none, some sp, _ =>
    .error [⟨sp, "ink! chain extension methods with non default ABI are not supported"⟩]
  | none, none, none, none, none, some sp =>
    .error [⟨sp, "variadic ink! chain extension methods are not supported"⟩]
  | none, none, none, none, none, none =>
    if method.sig.genericsParams ≠ [] then
      .error [⟨method.sig.genericsParams.headD ⟨0⟩, "generic ink! chain extension methods are not supported"⟩]
    else
      match first_ink_attribute method.attrs with
      | some (.extensionArg ext) =>
        ChainExtension.analyse_chain_extension_method method ext
      | some (.otherArg _) =>
        .error [⟨method.span, "encountered unsupported ink! attribute for ink! chain extension method. expected #[ink(function = N: usize)] attribute"⟩]
      | none =>
        .error [⟨method.span, "missing #[ink(function = N: usize)] flag on ink! chain extension method"⟩]

/-- The identifier registry of `analyse_items` (`seen_ids : HashMap`), modelled
as an association list mapping an `ExtensionId` to the first-seen span. -/
def lookupId : List (ExtensionId × Span) → ExtensionId → Option Span
  | [], _ => none
  | (k, v) :: rest, i => if k = i then some v else lookupId rest i

/-- The member loop of `ChainExtension::analyse_items`: classifies each member,
validates methods, checks extension ids against the registry, and accumulates
the validated methods in declaration order. -/
def ChainExtension.analyse_items_go (seen : List (ExtensionId × Span)) :
    List TraitItem → Except InkError (List ChainExtensionMethod)
  | [] => .ok []
  | trait_item :: rest =>
    match trait_item with
    | .constItem sp =>
      .error [⟨sp, "associated constants in ink! chain extensions are not supported, yet"⟩]
    | .macroItem sp =>
      .error [⟨sp, "macros in ink! chain extensions are not supported"⟩]
    | .typeItem sp =>
      .error [⟨sp, "associated types in ink! chain extensions are not supported, yet"⟩]
    | .verbatimItem sp =>
      .error [⟨sp, "encountered unsupported item in ink! chain extensions"⟩]
    | .methodItem method_trait_item =>
      match ChainExtension.analyse_methods method_trait_item with
      | .error e => .error e
      | .ok method =>
        match lookupId seen method.id with
        | some previous =>
          .error [⟨method.span, "encountered duplicate extension identifiers for the same chain extension"⟩,
            ⟨previous, "previous duplicate extension identifier here"⟩]
        | none =>
          match ChainExtension.analyse_items_go ((method.id, method.span) :: seen) rest with
          | .error e => .error e
          | .ok ms => .ok (method :: ms)
    | .unknownItem sp =>
      .error [⟨sp, "encountered unknown or unsupported item in ink! chain extensions"⟩]

/-- `ChainExtension::analyse_items`: runs the member loop with an empty registry. -/
def ChainExtension.analyse_items (item_trait : ItemTrait) :
    Except InkError (List ChainExtensionMethod) :=
  ChainExtension.analyse_items_go [] item_trait.items

/-- `impl TryFrom<syn::ItemTrait> for ChainExtension`: identifier lint, then
interface-level properties, then the member pass; assembles the result only if
every stage succeeded. -/
def ChainExtension.try_from (item_trait : ItemTrait) :
    Except InkError ChainExtension :=
  match ensure_no_ink_identifiers item_trait with
  | .error e => .error e
  | .ok _ =>
    match ChainExtension.analyse_properties item_trait with
    | .error e => .error e
    | .ok _ =>
      match ChainExtension.analyse_items item_trait with
      | .error e => .error e
      | .ok methods => .ok ⟨item_trait, methods⟩

/-- A method passes every structural (modifier/shape) check of
`analyse_methods`: no default body, no `const`/`async`/`unsafe`, default ABI,
not variadic, no generic parameters. -/
abbrev structurallyClean (m : TraitItemMethod) : Prop :=
  m.default = none ∧ m.sig.constness = none ∧ m.sig.asyncness = none ∧
    m.sig.unsafety = none ∧ m.sig.abi = none ∧ m.sig.variadic = none ∧
    m.sig.genericsParams = []

/-- A method is fully acceptable and carries exactly one ink! attribute, the
`function = n` directive: such a method validates successfully with id `n`. -/
abbrev methodOkFor (m : TraitItemMethod) (n : Nat) : Prop :=
  structurallyClean m ∧ m.sig.receiver = none ∧
    m.attrs.filterMap Attribute.inkArg? = [AttributeArg.extensionArg (Extension.new n)]

/-- A member that can never be validated: any non-method member, or a method
rejected by `analyse_methods`. -/
def memberFails : TraitItem → Prop
  | .methodItem m => ∀ cem, ChainExtension.analyse_methods m ≠ Except.ok cem
  | _ => True

/-- A member that is not a method at all. -/
def nonMethodMember : TraitItem → Prop
  | .methodItem _ => False
  | _ => True

/-- A method lacks the `function = N` directive: its attribute list has no ink!
attribute at all, or the first ink! attribute is of a different recognized kind. -/
def lacksDirective (m : TraitItemMethod) : Prop :=
  first_ink_attribute m.attrs = none ∨
    ∃ tag, first_ink_attribute m.attrs = some (AttributeArg.otherArg tag)

/-- A signature with no modifiers, for concrete examples. -/
def cleanSig (name : String) : Signature :=
  { ident := name, constness := none, asyncness := none, unsafety := none,
    abi := none, variadic := none, genericsParams := [], receiver := none }

/-- A concrete method named `name` carrying `#[ink(function = n)]`. -/
def sampleMethod (name : String) (sp : Nat) (n : Nat) : TraitItemMethod :=
  { attrs := [Attribute.ink (AttributeArg.extensionArg ⟨n⟩)],
    sig := cleanSig name, default := none, span := ⟨sp⟩ }

/-- Concrete interface `X` with methods `a` (`function = 1`), `b` (`function = 2`). -/
def sampleTrait : ItemTrait :=
  { ident := "X", span := ⟨0⟩, unsafety := none, auto_token := none,
    genericsParams := [], vis := .publicVis ⟨1⟩, supertraits := [],
    items := [.methodItem (sampleMethod "a" 2 1), .methodItem (sampleMethod "b" 3 2)] }

/-- The method/id pairs of `sampleTrait`. -/
def samplePairs : List (TraitItemMethod × Nat) :=
  [(sampleMethod "a" 2 1, 1), (sampleMethod "b" 3 2, 2)]

/-- The chain extension produced from `sampleTrait`. -/
def sampleCE : ChainExtension :=
  ⟨sampleTrait,
    [⟨sampleMethod "a" 2 1, ExtensionId.from_u32 1⟩,
      ⟨sampleMethod "b" 3 2, ExtensionId.from_u32 2⟩]⟩

/-- Concrete interface with methods carrying ids `[3, 5, 3]`. -/
def dupTrait : ItemTrait :=
  { ident := "X", span := ⟨0⟩, unsafety := none, auto_token := none,
    genericsParams := [], vis := .publicVis ⟨1⟩, supertraits := [],
    items := [.methodItem (sampleMethod "a" 2 3), .methodItem (sampleMethod "b" 3 5),
      .methodItem (sampleMethod "c" 4 3)] }

/-- Concrete interface with one generic parameter and zero members. -/
def genericTrait : ItemTrait :=
  { ident := "X", span := ⟨0⟩, unsafety := none, auto_token := none,
    genericsParams := [⟨7⟩], vis := .publicVis ⟨1⟩, supertraits := [],
    items := [] }

/-- Concrete method `a` declared `async`, carrying `function = 1`. -/
def asyncMethod : TraitItemMethod :=
  { attrs := [Attribute.ink (AttributeArg.extensionArg ⟨1⟩)],
    sig := { cleanSig "a" with asyncness := some ⟨9⟩ }, default := none, span := ⟨2⟩ }

/-- Concrete interface `X` whose single method `a` is declared `async`. -/
def asyncTrait : ItemTrait :=
  { ident := "X", span := ⟨0⟩, unsafety := none, auto_token := none,
    genericsParams := [], vis := .publicVis ⟨1⟩, supertraits := [],
    items := [.methodItem asyncMethod] }

/-- Concrete method with no ink! attribute at all. -/
def noDirectiveMethod : TraitItemMethod :=
  { attrs := [Attribute.rust 0], sig := cleanSig "a", default := none, span := ⟨2⟩ }

/-- Concrete interface whose single method lacks the `function = N` directive. -/
def noDirectiveTrait : ItemTrait :=
  { ident := "X", span := ⟨0⟩, unsafety := none, auto_token := none,
    genericsParams := [], vis := .publicVis ⟨1⟩, supertraits := [],
    items := [.methodItem noDirectiveMethod] }

/-- Concrete interface whose first member is an associated constant. -/
def constTrait : ItemTrait :=
  { ident := "X", span := ⟨0⟩, unsafety := none, auto_token := none,
    genericsParams := [], vis := .publicVis ⟨1⟩, supertraits := [],
    items := [.constItem ⟨5⟩, .methodItem (sampleMethod "a" 2 1)] }

/-- Concrete interface using a reserved ink! identifier, otherwise well formed. -/
def reservedTrait : ItemTrait :=
  { ident := "__ink_X", span := ⟨0⟩, unsafety := none, auto_token := none,
    genericsParams := [], vis := .publicVis ⟨1⟩, supertraits := [],
    items := [.methodItem (sampleMethod "a" 2 1)] }

/-! ## Helper lemmas -/

/-- `first_ink_attribute` is the head of the list of ink! arguments. -/
theorem first_ink_attribute_eq_head (attrs : List Attribute) :
    first_ink_attribute attrs = (attrs.filterMap Attribute.inkArg?).head? := by
  induction attrs with
  | nil => rfl
  | cons a rest ih =>
    cases a with
    | ink arg =>
      simp [first_ink_attribute, List.findSome?_cons, Attribute.inkArg?]
    | rust tag => exact ih

/-- A method satisfying `methodOkFor m n` validates to itself paired with id `n`. -/
theorem analyse_methods_of_methodOkFor (m : TraitItemMethod) (n : Nat)
    (h : methodOkFor m n) :
    ChainExtension.analyse_methods m = .ok ⟨m, ExtensionId.from_u32 n⟩ := by
  obtain ⟨⟨h1, h2, h3, h4, h5, h6, h7⟩, hrecv, hattr⟩ := h
  have hfirst : first_ink_attribute m.attrs =
      some (AttributeArg.extensionArg (Extension.new n)) := by
    rw [first_ink_attribute_eq_head, hattr]; rfl
  simp only [ChainExtension.analyse_methods, h1, h2, h3, h4, h5, h6, h7, hfirst]
  simp [ChainExtension.analyse_chain_extension_method, sanitize_attributes, hattr,
    AttributeArg.isExtension, hrecv, Extension.new]

/-- Inversion: a successfully validated method is returned unchanged, is
structurally clean, has no receiver, and carries exactly one ink! argument —
its `function = N` directive — whose id the produced method stores. -/
theorem analyse_methods_ok_inv (m : TraitItemMethod) (cem : ChainExtensionMethod)
    (h : ChainExtension.analyse_methods m = .ok cem) :
    cem.item = m ∧ structurallyClean m ∧ m.sig.receiver = none ∧
      ∃ ext : Extension,
        m.attrs.filterMap Attribute.inkArg? = [AttributeArg.extensionArg ext] ∧
          cem.id = ExtensionId.from_u32 ext.id := by
  obtain ⟨attrs, ⟨nm, c, a, u, ab, v, g, r⟩, d, sp⟩ := m
  cases d with
  | some s => exact absurd h (by simp [ChainExtension.analyse_methods])
  | none =>
  cases c with
  | some s => exact absurd h (by simp [ChainExtension.analyse_methods])
  | none =>
  cases a with
  | some s => exact absurd h (by simp [ChainExtension.analyse_methods])
  | none =>
  cases u with
  | some s => exact absurd h (by simp [ChainExtension.analyse_methods])
  | none =>
  cases ab with
  | some s => exact absurd h (by simp [ChainExtension.analyse_methods])
  | none =>
  cases v with
  | some s => exact absurd h (by simp [ChainExtension.analyse_methods])
  | none =>
  cases g with
  | cons p ps => exact absurd h (by simp [ChainExtension.analyse_methods])
  | nil =>
  simp only [ChainExtension.analyse_methods] at h
  rcases hfa : first_ink_attribute attrs with _ | arg
  · rw [hfa] at h
    exact absurd h (by simp)
  rcases arg with ext | tag
  case otherArg =>
    rw [hfa] at h
    exact absurd h (by simp)
  case extensionArg =>
  rw [hfa] at h
  simp only [ChainExtension.analyse_chain_extension_method] at h
  rcases hsan : sanitize_attributes sp attrs with e | val
  · rw [hsan] at h
    exact absurd h (by simp)
  rw [hsan] at h
  cases r with
  | some s => exact absurd h (by simp)
  | none =>
  have hcem : cem = ⟨⟨attrs, ⟨nm, none, none, none, none, none, [], none⟩, none, sp⟩,
      ExtensionId.from_u32 ext.id⟩ := by
    simpa using h.symm
  subst hcem
  have hhead : (attrs.filterMap Attribute.inkArg?).head? =
      some (AttributeArg.extensionArg ext) := by
    rw [← first_ink_attribute_eq_head, hfa]
  refine ⟨rfl, by simp [structurallyClean], rfl, ext, ?_, rfl⟩
  rcases hA : attrs.filterMap Attribute.inkArg? with _ | ⟨a0, tail⟩
  · rw [hA] at hhead
    exact absurd hhead (by simp)
  rw [hA] at hhead
  have ha0 : a0 = AttributeArg.extensionArg ext := by simpa using hhead
  subst ha0
  cases tail with
  | nil => rfl
  | cons a1 tail1 =>
    exfalso
    simp only [sanitize_attributes, hA] at hsan
    rcases hany : (AttributeArg.extensionArg ext :: a1 :: tail1).any
        (fun arg => !arg.isExtension) with _ | _
    · rw [hany] at hsan
      simp at hsan
    · rw [hany] at hsan
      simp at hsan

/-- The member loop succeeds on fully acceptable methods whose ids are fresh for
the registry and pairwise distinct, preserving order and per-method ids. -/
theorem analyse_items_go_ok (pairs : List (TraitItemMethod × Nat))
    (seen : List (ExtensionId × Span))
    (hok : ∀ p ∈ pairs, methodOkFor p.1 p.2)
    (hseen : ∀ p ∈ pairs, lookupId seen (ExtensionId.from_u32 p.2) = none)
    (hnd : (pairs.map Prod.snd).Nodup) :
    ChainExtension.analyse_items_go seen (pairs.map fun p => TraitItem.methodItem p.1) =
      .ok (pairs.map fun p => ⟨p.1, ExtensionId.from_u32 p.2⟩) := by
  induction pairs generalizing seen with
  | nil => rfl
  | cons p rest ih =>
    obtain ⟨m, n⟩ := p
    have hm := analyse_methods_of_methodOkFor m n (hok _ (List.mem_cons_self _ _))
    have hfresh := hseen _ (List.mem_cons_self _ _)
    have hnd2 : n ∉ rest.map Prod.snd ∧ (rest.map Prod.snd).Nodup := by
      simpa [List.nodup_cons] using hnd
    have hseen2 : ∀ q ∈ rest, lookupId ((ExtensionId.from_u32 n, m.span) :: seen)
        (ExtensionId.from_u32 q.2) = none := by
      intro q hq
      have hne : ExtensionId.from_u32 n ≠ ExtensionId.from_u32 q.2 := by
        intro hcontr
        apply hnd2.1
        have hq2 : n = q.2 := by simpa [ExtensionId.from_u32] using hcontr
        rw [hq2]
        exact List.mem_map_of_mem Prod.snd hq
      simp [lookupId, hne, hseen q (List.mem_cons_of_mem _ hq)]
    have hrec := ih ((ExtensionId.from_u32 n, m.span) :: seen)
      (fun q hq => hok q (List.mem_cons_of_mem _ hq)) hseen2 hnd2.2
    simp [ChainExtension.analyse_items_go, hm, hfresh, ChainExtensionMethod.span, hrec]

/-- If some member can never validate, the member loop fails from any registry
state (and the failure of one member rejects the whole declaration). -/
theorem analyse_items_go_fails (items : List TraitItem) :
    ∀ seen : List (ExtensionId × Span), (∃ ti ∈ items, memberFails ti) →
      ∃ e, ChainExtension.analyse_items_go seen items = .error e := by
  induction items with
  | nil =>
    intro seen hbad
    simp at hbad
  | cons ti rest ih =>
    intro seen hbad
    cases ti with
    | constItem sp => exact ⟨_, rfl⟩
    | macroItem sp => exact ⟨_, rfl⟩
    | typeItem sp => exact ⟨_, rfl⟩
    | verbatimItem sp => exact ⟨_, rfl⟩
    | unknownItem sp => exact ⟨_, rfl⟩
    | methodItem m =>
      rcases hm : ChainExtension.analyse_methods m with e | cem
      · exact ⟨e, by simp [ChainExtension.analyse_items_go, hm]⟩
      · have hbad2 : ∃ ti ∈ rest, memberFails ti := by
          rcases hbad with ⟨ti, hti, hfail⟩
          rcases List.mem_cons.mp hti with hh | hh
          · subst hh
            exact absurd hm (hfail cem)
          · exact ⟨ti, hh, hfail⟩
        rcases hlook : lookupId seen cem.id with _ | prev
        · rcases ih ((cem.id, cem.span) :: seen) hbad2 with ⟨e, he⟩
          exact ⟨e, by simp [ChainExtension.analyse_items_go, hm, hlook, he]⟩
        · simp only [ChainExtension.analyse_items_go, hm, hlook]
          exact ⟨_, rfl⟩

/-- Inversion of a successful member pass: every member was a method, each
validated to the corresponding output method, the collected ids are pairwise
distinct, and every collected id was fresh for the starting registry. -/
theorem analyse_items_go_ok_inv (items : List TraitItem) :
    ∀ (seen : List (ExtensionId × Span)) (ms : List ChainExtensionMethod),
      ChainExtension.analyse_items_go seen items = .ok ms →
        items = ms.map (fun cem => TraitItem.methodItem cem.item) ∧
          (∀ cem ∈ ms, ChainExtension.analyse_methods cem.item = .ok cem) ∧
          (ms.map ChainExtensionMethod.id).Nodup ∧
          (∀ cem ∈ ms, lookupId seen cem.id = none) := by
  induction items with
  | nil =>
    intro seen ms h
    obtain rfl : ms = [] := by simpa [ChainExtension.analyse_items_go] using h.symm
    simp
  | cons ti rest ih =>
    intro seen ms h
    cases ti with
    | constItem sp => exact absurd h (by simp [ChainExtension.analyse_items_go])
    | macroItem sp => exact absurd h (by simp [ChainExtension.analyse_items_go])
    | typeItem sp => exact absurd h (by simp [ChainExtension.analyse_items_go])
    | verbatimItem sp => exact absurd h (by simp [ChainExtension.analyse_items_go])
    | unknownItem sp => exact absurd h (by simp [ChainExtension.analyse_items_go])
    | methodItem m =>
      rcases hm : ChainExtension.analyse_methods m with e | cem
      · simp only [ChainExtension.analyse_items_go, hm] at h
        exact absurd h (by simp)
      rcases hlook : lookupId seen cem.id with _ | prev
      swap
      · simp only [ChainExtension.analyse_items_go, hm, hlook] at h
        exact absurd h (by simp)
      rcases hrec : ChainExtension.analyse_items_go ((cem.id, cem.span) :: seen) rest
          with e | ms1
      · simp only [ChainExtension.analyse_items_go, hm, hlook, hrec] at h
        exact absurd h (by simp)
      simp only [ChainExtension.analyse_items_go, hm, hlook, hrec] at h
      have hms : ms = cem :: ms1 := by simpa using h.symm
      subst hms
      obtain ⟨hshape, hvalid, hnd, hfresh⟩ := ih _ _ hrec
      have hitem : cem.item = m := (analyse_methods_ok_inv m cem hm).1
      have hfresh2 : ∀ x ∈ ms1, lookupId seen x.id = none := by
        intro x hx
        have hx2 := hfresh x hx
        by_cases hne : cem.id = x.id
        · rw [show lookupId ((cem.id, cem.span) :: seen) x.id = some cem.span by
            simp [lookupId, hne]] at hx2
          exact absurd hx2 (by simp)
        · rw [show lookupId ((cem.id, cem.span) :: seen) x.id = lookupId seen x.id by
            simp [lookupId, hne]] at hx2
          exact hx2
      refine ⟨by simp [hshape, hitem], ?_, ?_, ?_⟩
      · intro x hx
        rcases List.mem_cons.mp hx with hh | hh
        · subst hh
          rw [hitem]
          exact hm
        · exact hvalid x hh
      · refine List.nodup_cons.mpr ⟨?_, hnd⟩
        intro hmem
        rcases List.mem_map.mp hmem with ⟨x, hx, hxid⟩
        have hx2 := hfresh x hx
        rw [show lookupId ((cem.id, cem.span) :: seen) x.id = some cem.span by
          simp [lookupId, hxid]] at hx2
        exact absurd hx2 (by simp)
      · intro x hx
        rcases List.mem_cons.mp hx with hh | hh
        · subst hh
          exact hlook
        · exact hfresh2 x hh

/-- If every method of the member list validates individually but the ids are
not pairwise distinct (or collide with the registry), the member loop errors. -/
theorem analyse_items_go_dup_fails (pairs : List (TraitItemMethod × Nat)) :
    ∀ seen : List (ExtensionId × Span),
      (∀ p ∈ pairs, methodOkFor p.1 p.2) →
      ¬ ((pairs.map Prod.snd).Nodup ∧
          ∀ p ∈ pairs, lookupId seen (ExtensionId.from_u32 p.2) = none) →
      ∃ e, ChainExtension.analyse_items_go seen
          (pairs.map fun p => TraitItem.methodItem p.1) = .error e := by
  induction pairs with
  | nil =>
    intro seen _ hno
    exact absurd ⟨by simp, by simp⟩ hno
  | cons p rest ih =>
    intro seen hok hno
    obtain ⟨m, n⟩ := p
    have hm := analyse_methods_of_methodOkFor m n (hok _ (List.mem_cons_self _ _))
    rcases hlook : lookupId seen (ExtensionId.from_u32 n) with _ | prev
    swap
    · simp only [List.map_cons, ChainExtension.analyse_items_go, hm, hlook]
      exact ⟨_, rfl⟩
    · have hno2 : ¬ ((rest.map Prod.snd).Nodup ∧
          ∀ q ∈ rest, lookupId ((ExtensionId.from_u32 n, m.span) :: seen)
            (ExtensionId.from_u32 q.2) = none) := by
        rintro ⟨hnd, hfresh⟩
        apply hno
        constructor
        · rw [List.map_cons]
          refine List.nodup_cons.mpr ⟨?_, hnd⟩
          intro hmem
          rcases List.mem_map.mp hmem with ⟨q, hq, hq2⟩
          have hf := hfresh q hq
          rw [hq2] at hf
          rw [show lookupId ((ExtensionId.from_u32 n, m.span) :: seen)
              (ExtensionId.from_u32 n) = some m.span by simp [lookupId]] at hf
          exact absurd hf (by simp)
        · intro q hq
          rcases List.mem_cons.mp hq with hh | hh
          · subst hh
            exact hlook
          · have hf := hfresh q hh
            by_cases hne : ExtensionId.from_u32 n = ExtensionId.from_u32 q.2
            · rw [show lookupId ((ExtensionId.from_u32 n, m.span) :: seen)
                  (ExtensionId.from_u32 q.2) = some m.span by simp [lookupId, hne]] at hf
              exact absurd hf (by simp)
            · rw [show lookupId ((ExtensionId.from_u32 n, m.span) :: seen)
                  (ExtensionId.from_u32 q.2) = lookupId seen (ExtensionId.from_u32 q.2) by
                simp [lookupId, hne]] at hf
              exact hf
      rcases ih ((ExtensionId.from_u32 n, m.span) :: seen)
        (fun q hq => hok q (List.mem_cons_of_mem _ hq)) hno2 with ⟨e, he⟩
      simp only [List.map_cons, ChainExtension.analyse_items_go, hm, hlook,
        ChainExtensionMethod.span, he]
      exact ⟨_, rfl⟩

/-- A method lacking the `function = N` directive can never validate. -/
theorem analyse_methods_lacksDirective_fails (m : TraitItemMethod)
    (h : lacksDirective m) : ∀ cem, ChainExtension.analyse_methods m ≠ .ok cem := by
  intro cem hok
  obtain ⟨_, _, _, ext, hattr, _⟩ := analyse_methods_ok_inv m cem hok
  have hfa : first_ink_attribute m.attrs = some (AttributeArg.extensionArg ext) := by
    rw [first_ink_attribute_eq_head, hattr]
    rfl
  rcases h with h | ⟨tag, h⟩ <;> rw [h] at hfa <;> simp at hfa

/-- Inversion of a successful `try_from`: every stage of validation succeeded
and the result pairs the original trait with the validated methods. -/
theorem try_from_ok_inv (t : ItemTrait) (ce : ChainExtension)
    (h : ChainExtension.try_from t = .ok ce) :
    ce.item = t ∧ ensure_no_ink_identifiers t = .ok () ∧
      ChainExtension.analyse_properties t = .ok () ∧
      ChainExtension.analyse_items t = .ok ce.methods := by
  rcases h1 : ensure_no_ink_identifiers t with e | u
  · unfold ChainExtension.try_from at h
    rw [h1] at h
    exact absurd h (by simp)
  rcases h2 : ChainExtension.analyse_properties t with e | u2
  · unfold ChainExtension.try_from at h
    rw [h1, h2] at h
    exact absurd h (by simp)
  rcases h3 : ChainExtension.analyse_items t with e | ms
  · unfold ChainExtension.try_from at h
    rw [h1, h2, h3] at h
    exact absurd h (by simp)
  unfold ChainExtension.try_from at h
  rw [h1, h2, h3] at h
  have hce : ce = ⟨t, ms⟩ := by simpa using h.symm
  subst hce
  cases u
  cases u2
  exact ⟨rfl, rfl, rfl, rfl⟩

/-- Ink! attributes and ink! arguments are in bijection position-wise: the
filtered list and the filter-mapped list have the same length. -/
theorem length_filter_isInk (attrs : List Attribute) :
    (attrs.filter Attribute.isInk).length = (attrs.filterMap Attribute.inkArg?).length := by
  induction attrs with
  | nil => rfl
  | cons a rest ih =>
    cases a <;> simp [Attribute.isInk, Attribute.inkArg?, ih]

/-! ## Claim theorems -/

/-- C1: an interface passing the interface-level property checks whose members
are all methods with no default body, no modifiers, default ABI, not variadic,
no generics, no receiver, and exactly one `function = N` directive each, with
pairwise-distinct ids, validates successfully; the resulting methods list has
the same length as the member list, in declaration order, each method carrying
the `ExtensionId` from its own directive. -/
theorem C1_wellformed_interface_accepted (t : ItemTrait)
    (pairs : List (TraitItemMethod × Nat))
    (hlint : usesReservedInkIdentifier t = false)
    (hsafety : t.unsafety = none) (hauto : t.auto_token = none)
    (hgen : t.genericsParams = []) (hvis : t.vis.isPublic = true)
    (hsup : t.supertraits = [])
    (hitems : t.items = pairs.map fun p => TraitItem.methodItem p.1)
    (hok : ∀ p ∈ pairs, methodOkFor p.1 p.2)
    (hnd : (pairs.map Prod.snd).Nodup) :
    ChainExtension.try_from t =
      .ok ⟨t, pairs.map fun p => ⟨p.1, ExtensionId.from_u32 p.2⟩⟩ := by
  have hprops : ChainExtension.analyse_properties t = .ok () := by
    simp [ChainExtension.analyse_properties, hsafety, hauto, hgen, hvis, hsup]
  have hitems2 : ChainExtension.analyse_items t =
      .ok (pairs.map fun p => ⟨p.1, ExtensionId.from_u32 p.2⟩) := by
    rw [ChainExtension.analyse_items, hitems]
    exact analyse_items_go_ok pairs [] hok (fun p _ => rfl) hnd
  unfold ChainExtension.try_from
  rw [show ensure_no_ink_identifiers t = .ok () by
    simp [ensure_no_ink_identifiers, hlint], hprops, hitems2]

/-- Witness for C1: the concrete interface `X` with methods `a` (`function = 1`)
and `b` (`function = 2`) validates to exactly those two methods, in order. -/
theorem C1_wellformed_interface_accepted_witness :
    (usesReservedInkIdentifier sampleTrait = false ∧
      sampleTrait.unsafety = none ∧ sampleTrait.auto_token = none ∧
      sampleTrait.genericsParams = [] ∧ sampleTrait.vis.isPublic = true ∧
      sampleTrait.supertraits = [] ∧
      sampleTrait.items = (samplePairs.map fun p => TraitItem.methodItem p.1) ∧
      (∀ p ∈ samplePairs, methodOkFor p.1 p.2) ∧
      (samplePairs.map Prod.snd).Nodup) ∧
    ChainExtension.try_from sampleTrait =
      .ok ⟨sampleTrait, samplePairs.map fun p => ⟨p.1, ExtensionId.from_u32 p.2⟩⟩ :=
  ⟨⟨by decide, rfl, rfl, rfl, rfl, rfl, rfl, by decide, by decide⟩,
    C1_wellformed_interface_accepted sampleTrait samplePairs (by decide) rfl rfl rfl rfl
      rfl rfl (by decide) (by decide)⟩

/-- C2: methods that all validate individually but share an extension id make
validation fail with a duplicate-identifier error; for ids `[3, 5, 3]` in
declaration order the error's primary span is the third method's and the
combined "previous" span is the first method's (the first-seen occurrence). -/
theorem C2_duplicate_ids_rejected :
    (∀ (t : ItemTrait) (pairs : List (TraitItemMethod × Nat)),
      t.items = (pairs.map fun p => TraitItem.methodItem p.1) →
      (∀ p ∈ pairs, methodOkFor p.1 p.2) →
      ¬ (pairs.map Prod.snd).Nodup →
      ∃ e, ChainExtension.analyse_items t = .error e) ∧
    (∀ (t : ItemTrait) (m0 m1 m2 : TraitItemMethod),
      methodOkFor m0 3 → methodOkFor m1 5 → methodOkFor m2 3 →
      t.items = [TraitItem.methodItem m0, TraitItem.methodItem m1,
        TraitItem.methodItem m2] →
      ChainExtension.analyse_items t =
        .error [⟨m2.span, "encountered duplicate extension identifiers for the same chain extension"⟩,
          ⟨m0.span, "previous duplicate extension identifier here"⟩]) := by
  constructor
  · intro t pairs hitems hok hnd
    rw [ChainExtension.analyse_items, hitems]
    exact analyse_items_go_dup_fails pairs [] hok fun hc => hnd hc.1
  · intro t m0 m1 m2 h0 h1 h2 hitems
    have e0 := analyse_methods_of_methodOkFor m0 3 h0
    have e1 := analyse_methods_of_methodOkFor m1 5 h1
    have e2 := analyse_methods_of_methodOkFor m2 3 h2
    rw [ChainExtension.analyse_items, hitems]
    simp [ChainExtension.analyse_items_go, e0, e1, e2, lookupId,
      ChainExtensionMethod.span, ExtensionId.from_u32]

/-- Witness for C2 at ids `[3, 5, 3]`: the error cites method `c`'s span first
and method `a`'s span as the previous occurrence. -/
theorem C2_duplicate_ids_rejected_witness :
    (methodOkFor (sampleMethod "a" 2 3) 3 ∧ methodOkFor (sampleMethod "b" 3 5) 5 ∧
      methodOkFor (sampleMethod "c" 4 3) 3 ∧
      dupTrait.items = [TraitItem.methodItem (sampleMethod "a" 2 3),
        TraitItem.methodItem (sampleMethod "b" 3 5),
        TraitItem.methodItem (sampleMethod "c" 4 3)]) ∧
    ChainExtension.analyse_items dupTrait =
      .error [⟨(sampleMethod "c" 4 3).span, "encountered duplicate extension identifiers for the same chain extension"⟩,
        ⟨(sampleMethod "a" 2 3).span, "previous duplicate extension identifier here"⟩] :=
  ⟨⟨by decide, by decide, by decide, rfl⟩,
    C2_duplicate_ids_rejected.2 dupTrait _ _ _ (by decide) (by decide) (by decide) rfl⟩

/-- C3: a `ChainExtension` is only produced by a fully successful validation
pass (lint, properties and member pass all succeeded, and the value pairs the
original trait with the validated methods), and its methods' `ExtensionId`s are
pairwise distinct. -/
theorem C3_chain_extension_invariant (t : ItemTrait) (ce : ChainExtension)
    (h : ChainExtension.try_from t = .ok ce) :
    (ce.methods.map ChainExtensionMethod.id).Nodup ∧ ce.item = t ∧
      ensure_no_ink_identifiers t = .ok () ∧
      ChainExtension.analyse_properties t = .ok () ∧
      ChainExtension.analyse_items t = .ok ce.methods := by
  obtain ⟨hitem, hlint, hprops, hitems⟩ := try_from_ok_inv t ce h
  rw [ChainExtension.analyse_items] at hitems
  exact ⟨(analyse_items_go_ok_inv t.items [] ce.methods hitems).2.2.1, hitem, hlint,
    hprops, by rw [ChainExtension.analyse_items]; exact hitems⟩

/-- Witness for C3 at the concrete interface `X`: validation succeeds and the
resulting ids `[1, 2]` are pairwise distinct. -/
theorem C3_chain_extension_invariant_witness :
    ChainExtension.try_from sampleTrait = .ok sampleCE ∧
      (sampleCE.methods.map ChainExtensionMethod.id).Nodup :=
  ⟨by rfl, (C3_chain_extension_invariant sampleTrait sampleCE (by rfl)).1⟩

/-- C4: the interface-level property check rejects, independently of the member
list, any interface that is `unsafe`, an auto trait, generic, non-public, or
has supertraits; in particular a generic interface fails the whole validation
even with zero members. -/
theorem C4_property_violations_rejected (t : ItemTrait) :
    ((t.unsafety ≠ none ∨ t.auto_token ≠ none ∨ t.genericsParams ≠ [] ∨
        t.vis.isPublic = false ∨ t.supertraits ≠ []) →
      ∃ e, ChainExtension.analyse_properties t = .error e) ∧
    (usesReservedInkIdentifier t = false → t.genericsParams ≠ [] → t.items = [] →
      ∃ e, ChainExtension.try_from t = .error e) := by
  have hprop : (t.unsafety ≠ none ∨ t.auto_token ≠ none ∨ t.genericsParams ≠ [] ∨
      t.vis.isPublic = false ∨ t.supertraits ≠ []) →
      ∃ e, ChainExtension.analyse_properties t = .error e := by
    intro hviol
    rcases hu : t.unsafety with _ | sp
    case some =>
      simp only [ChainExtension.analyse_properties, hu]
      exact ⟨_, rfl⟩
    rcases ha : t.auto_token with _ | sp
    case some =>
      simp only [ChainExtension.analyse_properties, hu, ha]
      exact ⟨_, rfl⟩
    rcases hg : t.genericsParams with _ | ⟨p, ps⟩
    case cons =>
      simp [ChainExtension.analyse_properties, hu, ha, hg]
    rcases hv : t.vis with sp | sp | sp | sp
    case crateVis =>
      simp [ChainExtension.analyse_properties, hu, ha, hg, hv, Visibility.isPublic]
    case restrictedVis =>
      simp [ChainExtension.analyse_properties, hu, ha, hg, hv, Visibility.isPublic]
    case inheritedVis =>
      simp [ChainExtension.analyse_properties, hu, ha, hg, hv, Visibility.isPublic]
    case publicVis =>
      rcases hs : t.supertraits with _ | ⟨q, qs⟩
      case cons =>
        simp [ChainExtension.analyse_properties, hu, ha, hg, hv, Visibility.isPublic, hs]
      case nil =>
        exfalso
        rcases hviol with h | h | h | h | h
        · exact h hu
        · exact h ha
        · exact h hg
        · rw [hv] at h
          simp [Visibility.isPublic] at h
        · exact h hs
  refine ⟨hprop, fun hlint hgen _ => ?_⟩
  obtain ⟨e, he⟩ := hprop (Or.inr (Or.inr (Or.inl hgen)))
  refine ⟨e, ?_⟩
  unfold ChainExtension.try_from
  rw [show ensure_no_ink_identifiers t = .ok () by
    simp [ensure_no_ink_identifiers, hlint], he]

/-- Witness for C4: the concrete interface with one generic parameter and zero
members fails validation. -/
theorem C4_property_violations_rejected_witness :
    (usesReservedInkIdentifier genericTrait = false ∧
      genericTrait.genericsParams ≠ [] ∧ genericTrait.items = []) ∧
    (∃ e, ChainExtension.try_from genericTrait = .error e) :=
  ⟨⟨by decide, by decide, rfl⟩,
    (C4_property_violations_rejected genericTrait).2 (by decide) (by decide) rfl⟩

/-- C5: a method lacking the `function = N` directive makes validation fail with
a directive error — the missing-directive diagnostic when no ink! attribute is
present, the wrong-kind diagnostic when a different recognized ink! directive is
present instead — and an interface containing such a method is rejected
regardless of the other members. -/
theorem C5_missing_directive_rejected :
    (∀ m : TraitItemMethod, structurallyClean m →
      (first_ink_attribute m.attrs = none →
        ChainExtension.analyse_methods m =
          .error [⟨m.span, "missing #[ink(function = N: usize)] flag on ink! chain extension method"⟩]) ∧
      (∀ tag, first_ink_attribute m.attrs = some (AttributeArg.otherArg tag) →
        ChainExtension.analyse_methods m =
          .error [⟨m.span, "encountered unsupported ink! attribute for ink! chain extension method. expected #[ink(function = N: usize)] attribute"⟩])) ∧
    (∀ (t : ItemTrait) (m : TraitItemMethod),
      TraitItem.methodItem m ∈ t.items → lacksDirective m →
      ∃ e, ChainExtension.analyse_items t = .error e) := by
  constructor
  · rintro m ⟨h1, h2, h3, h4, h5, h6, h7⟩
    constructor
    · intro hfa
      simp [ChainExtension.analyse_methods, h1, h2, h3, h4, h5, h6, h7, hfa]
    · intro tag hfa
      simp [ChainExtension.analyse_methods, h1, h2, h3, h4, h5, h6, h7, hfa]
  · intro t m hmem hlacks
    rw [ChainExtension.analyse_items]
    exact analyse_items_go_fails t.items []
      ⟨TraitItem.methodItem m, hmem, analyse_methods_lacksDirective_fails m hlacks⟩

/-- Witness for C5: the interface whose single method has no ink! attribute is
rejected. -/
theorem C5_missing_directive_rejected_witness :
    (TraitItem.methodItem noDirectiveMethod ∈ noDirectiveTrait.items ∧
      lacksDirective noDirectiveMethod) ∧
    (∃ e, ChainExtension.analyse_items noDirectiveTrait = .error e) :=
  ⟨⟨by decide, Or.inl rfl⟩,
    C5_missing_directive_rejected.2 noDirectiveTrait noDirectiveMethod (by decide)
      (Or.inl rfl)⟩

/-- C6: a method with a default body, or marked const/async/unsafe, or with a
non-default ABI, variadic, generic, or with a `self` receiver, can never
validate; concretely, an interface whose single method `a` is `async` with
`function = 1` fails with the asyncness structural violation. -/
theorem C6_method_structural_violations (t : ItemTrait) :
    (∀ m : TraitItemMethod,
      (m.default ≠ none ∨ m.sig.constness ≠ none ∨ m.sig.asyncness ≠ none ∨
        m.sig.unsafety ≠ none ∨ m.sig.abi ≠ none ∨ m.sig.variadic ≠ none ∨
        m.sig.genericsParams ≠ [] ∨ m.sig.receiver ≠ none) →
      ∃ e, ChainExtension.analyse_methods m = .error e) ∧
    (∀ (m : TraitItemMethod) (sp : Span),
      usesReservedInkIdentifier t = false →
      ChainExtension.analyse_properties t = .ok () →
      t.items = [TraitItem.methodItem m] →
      m.default = none → m.sig.constness = none → m.sig.asyncness = some sp →
      ChainExtension.try_from t =
        .error [⟨sp, "async ink! chain extension methods are not supported"⟩]) := by
  constructor
  · intro m hviol
    rcases hres : ChainExtension.analyse_methods m with e | cem
    · exact ⟨e, rfl⟩
    · exfalso
      obtain ⟨_, ⟨h1, h2, h3, h4, h5, h6, h7⟩, hrecv, _⟩ :=
        analyse_methods_ok_inv m cem hres
      rcases hviol with h | h | h | h | h | h | h | h
      exacts [h h1, h h2, h h3, h h4, h h5, h h6, h h7, h hrecv]
  · intro m sp hlint hprops hitems hdef hconst hasync
    have hm : ChainExtension.analyse_methods m =
        .error [⟨sp, "async ink! chain extension methods are not supported"⟩] := by
      simp [ChainExtension.analyse_methods, hdef, hconst, hasync]
    unfold ChainExtension.try_from
    rw [show ensure_no_ink_identifiers t = .ok () by
      simp [ensure_no_ink_identifiers, hlint], hprops]
    rw [show ChainExtension.analyse_items t =
        .error [⟨sp, "async ink! chain extension methods are not supported"⟩] by
      rw [ChainExtension.analyse_items, hitems]
      simp [ChainExtension.analyse_items_go, hm]]

/-- Witness for C6: the interface whose single method is `async` fails with the
asyncness diagnostic at the `async` token's span. -/
theorem C6_method_structural_violations_witness :
    (usesReservedInkIdentifier asyncTrait = false ∧
      ChainExtension.analyse_properties asyncTrait = .ok () ∧
      asyncTrait.items = [TraitItem.methodItem asyncMethod] ∧
      asyncMethod.default = none ∧ asyncMethod.sig.constness = none ∧
      asyncMethod.sig.asyncness = some ⟨9⟩) ∧
    ChainExtension.try_from asyncTrait =
      .error [⟨⟨9⟩, "async ink! chain extension methods are not supported"⟩] :=
  ⟨⟨by decide, by rfl, rfl, rfl, rfl, rfl⟩,
    (C6_method_structural_violations asyncTrait).2 asyncMethod ⟨9⟩ (by decide) (by rfl)
      rfl rfl rfl rfl⟩

/-- C7: the member pass yields the full, ordered list of validated methods only
when every member is a method that validates — every other outcome rejects the
whole declaration (no partial list); a leading associated constant is rejected
with the associated-constants diagnostic. -/
theorem C7_member_pass_all_or_nothing :
    (∀ (t : ItemTrait) (ms : List ChainExtensionMethod),
      ChainExtension.analyse_items t = .ok ms →
      t.items = ms.map (fun cem => TraitItem.methodItem cem.item) ∧
      ms.length = t.items.length ∧
      ∀ cem ∈ ms, ChainExtension.analyse_methods cem.item = .ok cem) ∧
    (∀ (t : ItemTrait) (ti : TraitItem), ti ∈ t.items → memberFails ti →
      ∃ e, ChainExtension.analyse_items t = .error e) ∧
    (∀ (t : ItemTrait) (sp : Span) (rest : List TraitItem),
      t.items = TraitItem.constItem sp :: rest →
      ChainExtension.analyse_items t =
        .error [⟨sp, "associated constants in ink! chain extensions are not supported, yet"⟩]) := by
  refine ⟨?_, ?_, ?_⟩
  · intro t ms h
    rw [ChainExtension.analyse_items] at h
    obtain ⟨hshape, hvalid, _, _⟩ := analyse_items_go_ok_inv t.items [] ms h
    exact ⟨hshape, by rw [hshape, List.length_map], hvalid⟩
  · intro t ti hmem hfail
    rw [ChainExtension.analyse_items]
    exact analyse_items_go_fails t.items [] ⟨ti, hmem, hfail⟩
  · intro t sp rest hitems
    rw [ChainExtension.analyse_items, hitems]
    rfl

/-- Witness for C7: the interface whose first member is an associated constant
is rejected with the associated-constants diagnostic. -/
theorem C7_member_pass_all_or_nothing_witness :
    constTrait.items = TraitItem.constItem ⟨5⟩ ::
        [TraitItem.methodItem (sampleMethod "a" 2 1)] ∧
    ChainExtension.analyse_items constTrait =
      .error [⟨⟨5⟩, "associated constants in ink! chain extensions are not supported, yet"⟩] :=
  ⟨rfl, C7_member_pass_all_or_nothing.2.2 constTrait ⟨5⟩
    [TraitItem.methodItem (sampleMethod "a" 2 1)] rfl⟩

/-- C8: validation is a pure, deterministic function of its input: validating
the same declaration twice yields structurally equal results (the embedding is
a total function with no state beyond the per-call registry). -/
theorem C8_validator_deterministic (t : ItemTrait) :
    ChainExtension.try_from t = ChainExtension.try_from t :=
  rfl

/-- C9: for every method of a successfully validated chain extension, `attrs`
returns the method's attribute list with all ink! attributes stripped, and its
internal attribute partition succeeds (no panic). -/
theorem C9_attrs_strips_ink_attributes (t : ItemTrait) (ce : ChainExtension)
    (h : ChainExtension.try_from t = .ok ce) :
    ∀ m ∈ ce.methods, ChainExtensionMethod.attrs m =
      .ok (m.item.attrs.filter fun a => !a.isInk) := by
  intro m hm
  obtain ⟨_, _, _, hitems⟩ := try_from_ok_inv t ce h
  rw [ChainExtension.analyse_items] at hitems
  obtain ⟨_, hvalid, _, _⟩ := analyse_items_go_ok_inv t.items [] ce.methods hitems
  obtain ⟨_, _, _, ext, hattr, _⟩ := analyse_methods_ok_inv m.item m (hvalid m hm)
  have hlen : (m.item.attrs.filter Attribute.isInk).length = 1 := by
    rw [length_filter_isInk, hattr]
    rfl
  obtain ⟨x, hx⟩ := List.length_eq_one.mp hlen
  simp [ChainExtensionMethod.attrs, partition_attributes, hx, Except.map]

/-- Witness for C9 at the concrete interface `X`: both validated methods
expose exactly their non-ink attributes (here, none). -/
theorem C9_attrs_strips_ink_attributes_witness :
    ChainExtension.try_from sampleTrait = .ok sampleCE ∧
      ∀ m ∈ sampleCE.methods, ChainExtensionMethod.attrs m =
        .ok (m.item.attrs.filter fun a => !a.isInk) :=
  ⟨by rfl, C9_attrs_strips_ink_attributes sampleTrait sampleCE (by rfl)⟩

/-- C10: the identifier lint runs before any interface-level or member-level
check: a declaration using a reserved ink! identifier is rejected with the lint
error, whatever the rest of the declaration looks like. -/
theorem C10_ident_lint_runs_first (t : ItemTrait)
    (h : usesReservedInkIdentifier t = true) :
    ChainExtension.try_from t =
      .error [⟨t.span, "encountered invalid identifier starting with __ink"⟩] := by
  unfold ChainExtension.try_from
  rw [show ensure_no_ink_identifiers t =
      .error [⟨t.span, "encountered invalid identifier starting with __ink"⟩] by
    simp [ensure_no_ink_identifiers, h]]

/-- Witness for C10: the otherwise well-formed interface named `__ink_X` is
rejected by the identifier lint. -/
theorem C10_ident_lint_runs_first_witness :
    usesReservedInkIdentifier reservedTrait = true ∧
      ChainExtension.try_from reservedTrait =
        .error [⟨reservedTrait.span, "encountered invalid identifier starting with __ink"⟩] :=
  ⟨by decide, C10_ident_lint_runs_first reservedTrait (by decide)⟩
